import Mathlib

/-!
Shallow embedding of the regchat retrieval engine
(src/Complexity.py, src/search_utils.py, src/JsonToPinecone.py).

Strings are modelled as lists of characters; Python `str.split()`,
`str.lower()`, substring tests and `str.startswith` are embedded as
executable functions on `List Char`.  Similarity scores (floats only
compared, never added) are modelled as integers; embedding values are
likewise modelled as integers since only lengths and element identity
matter to the claims.  Fallible calls (vector-store queries, the
embedding model) are modelled with `Option`.
-/

namespace Regchat

abbrev Chars := List Char

/-- Python `str.split()` whitespace set (space, tab, newline, CR, VT, FF). -/
def isPySpace (c : Char) : Bool :=
  c = ' ' || c = '\t' || c = '\n' || c = '\r' || c = '\x0b' || c = '\x0c'

/-- Python `str.lower()` (ASCII range, which covers all inputs used here). -/
def lowerChars (s : Chars) : Chars := s.map Char.toLower

/-- Accumulator-based splitter: `splitAux s acc` processes `s` with the
current (reversed) in-progress word `acc`. -/
def splitAux : Chars → Chars → List Chars
  | [], acc => if acc.isEmpty then [] else [acc.reverse]
  | c :: cs, acc =>
    if isPySpace c then
      if acc.isEmpty then splitAux cs [] else acc.reverse :: splitAux cs []
    else splitAux cs (c :: acc)

/-- Python `str.split()`: whitespace-delimited words, empties dropped. -/
def pySplit (s : Chars) : List Chars := splitAux s []

/-- Python `pat in s` (contiguous substring test). -/
def hasSubstr (pat : Chars) : Chars → Bool
  | [] => pat.isEmpty
  | c :: cs => pat.isPrefixOf (c :: cs) || hasSubstr pat cs

/-- The fixed keyword set of `calculate_complexity_score` (src/Complexity.py). -/
def keywords : List Chars :=
  ["compare", "cross-jurisdictional", "audit", "framework", "guidelines"].map String.toList

/-- src/Complexity.py, `calculate_complexity_score`. -/
def calculate_complexity_score (query : Chars) : Nat :=
  let words := pySplit query
  let lengthScore := words.length / 5
  let keywordScore := (words.filter (fun w => keywords.contains (lowerChars w))).length
  let multiScore := if hasSubstr "and".toList query || hasSubstr ",".toList query then 2 else 0
  let questionScore :=
    if ("how".toList.isPrefixOf (lowerChars query) || "why".toList.isPrefixOf (lowerChars query))
    then 3 else 0
  lengthScore + keywordScore + multiScore + questionScore

/-- Contribution of the word count: `len(query.split()) // 5`. -/
def wordCountContribution (q : Chars) : Nat := (pySplit q).length / 5

/-- Contribution of keyword hits: one per token whose lowercase form is a keyword. -/
def keywordContribution (q : Chars) : Nat :=
  ((pySplit q).filter (fun w => keywords.contains (lowerChars w))).length

/-- Contribution of the multi-concept test: 2 when the query has "and" or a comma. -/
def multiConceptContribution (q : Chars) : Nat :=
  if hasSubstr "and".toList q || hasSubstr ",".toList q then 2 else 0

/-- Contribution of the question-type test: 3 when the query starts with how/why. -/
def questionTypeContribution (q : Chars) : Nat :=
  if ("how".toList.isPrefixOf (lowerChars q) || "why".toList.isPrefixOf (lowerChars q))
  then 3 else 0

/-- src/search_utils.py, `determine_search_params`. -/
def determine_search_params (complexity_score : Int) : Nat × Nat :=
  if complexity_score ≥ 6 then (15, 0)
  else if complexity_score ≥ 3 then (12, 0)
  else (7, 0)

/-- A vector-store match: identifier, similarity score (floats are only
compared by the code, so an integer score is a faithful model), and the
namespace recorded in its metadata. -/
structure RMatch where
  id : String
  score : Int
  ns : String
deriving DecidableEq

/-- `match.metadata['namespace'] = namespace` (src/search_utils.py line 134). -/
def setNs (m : RMatch) (n : String) : RMatch := ⟨m.id, m.score, n⟩

/-- Inner loop of the first pass of `search_regulations`: append the matches
of one namespace, skipping ids already in `used_ids`. -/
def addNamespaceMatches (n : String) : List RMatch → List RMatch × List String → List RMatch × List String
  | [], acc => acc
  | m :: ms, (all_matches, used_ids) =>
    if m.id ∈ used_ids then addNamespaceMatches n ms (all_matches, used_ids)
    else addNamespaceMatches n ms (all_matches ++ [setNs m n], used_ids ++ [m.id])

/-- First pass of `search_regulations` (lines 119-140): query every namespace;
`fetch n = none` models `index.query` raising, which the `except` clause
swallows before the loop continues. -/
def collectMatches (fetch : String → Option (List RMatch)) :
    List String → List RMatch × List String → List RMatch × List String
  | [], acc => acc
  | n :: rest, acc =>
    match fetch n with
    | none => collectMatches fetch rest acc
    | some ms => collectMatches fetch rest (addNamespaceMatches n ms acc)

/-- Comparison of `all_matches.sort(key=lambda x: x.score, reverse=True)`:
`a` may precede `b` when `a.score ≥ b.score`. -/
def scoreRel (a b : RMatch) : Prop := b.score ≤ a.score

instance scoreRelDecidable : DecidableRel scoreRel :=
  fun a b => inferInstanceAs (Decidable (b.score ≤ a.score))

instance scoreRelTotal : IsTotal RMatch scoreRel :=
  ⟨fun a b => le_total b.score a.score⟩

instance scoreRelTrans : IsTrans RMatch scoreRel :=
  ⟨fun _ _ _ h1 h2 => le_trans h2 h1⟩

/-- `all_matches.sort(key=lambda x: x.score, reverse=True)` (line 143).
Python's sort is stable, and the output of a stable sort under a total
preorder is unique, so the stable `insertionSort` models it exactly. -/
def sortByScoreDesc (l : List RMatch) : List RMatch := l.insertionSort scoreRel

/-- Floor-enforcement first loop (lines 150-155): walk `all_matches` and keep
each match whose namespace has not yet reached `results_per_namespace`. -/
def floorPass (results_per_namespace : Nat) (nss : List String) :
    List RMatch → List RMatch × (String → Nat) → List RMatch × (String → Nat)
  | [], acc => acc
  | m :: ms, (final_results, counts) =>
    if m.ns ∈ nss ∧ counts m.ns < results_per_namespace then
      floorPass results_per_namespace nss ms
        (final_results ++ [m], fun n => if n = m.ns then counts m.ns + 1 else counts n)
    else floorPass results_per_namespace nss ms (final_results, counts)

/-- Fill loop (lines 160-162): append further matches while below `max_results`,
skipping matches already selected. -/
def fillPass (max_results : Nat) : List RMatch → List RMatch → List RMatch
  | [], final_results => final_results
  | m :: ms, final_results =>
    if m ∈ final_results ∨ ¬ final_results.length < max_results then
      fillPass max_results ms final_results
    else fillPass max_results ms (final_results ++ [m])

/-- Merge step of `search_regulations` (lines 145-167), applied to the sorted
deduplicated pool. -/
def mergeResults (nss : List String) (max_results results_per_namespace : Nat)
    (all_matches : List RMatch) : List RMatch :=
  if results_per_namespace > 0 then
    let first := (floorPass results_per_namespace nss all_matches ([], fun _ => 0)).1
    let final := if first.length < max_results then fillPass max_results all_matches first else first
    final.take max_results
  else
    all_matches.take max_results

/-- Fetch-collect-sort-merge core of `search_regulations` (lines 116-167),
parameterised over the per-namespace fetch. -/
def search_core (fetch : String → Option (List RMatch)) (nss : List String)
    (max_results results_per_namespace : Nat) : List RMatch :=
  mergeResults nss max_results results_per_namespace
    (sortByScoreDesc (collectMatches fetch nss ([], [])).1)

/-- Registry entry: display name and variation aliases. -/
structure NamespaceInfo where
  display_name : String
  variations : List String

/-- `namespace_docs` (src/search_utils.py lines 70-91), in source order. -/
def namespace_docs : List (String × NamespaceInfo) :=
  [("ECB_GIM_Feb24", ⟨"ECB GIM Feb 2024", ["ecb gim", "gim feb 2024", "ecb guide", "ecb"]⟩),
   ("ECB_TRIM2017", ⟨"ECB TRIM 2017", ["ecb trim", "trim 2017", "trim guide", "trim"]⟩),
   ("PRA_ss123", ⟨"PRA SS1/23", ["pra", "ss1/23", "ss1 23", "pra ss", "ss1"]⟩),
   ("JFSA_2021", ⟨"JFSA 2021", ["jfsa", "japan fsa", "fsa"]⟩),
   ("FED_sr1107a1", ⟨"FED SR 11-7a1", ["fed", "sr 11-7", "sr11-7", "fed sr", "sr11"]⟩)]

/-- Regex `\w` (ASCII range, which covers the registry and queries here). -/
def isWordChar (c : Char) : Bool := c.isAlphanum || c = '_'

/-- Whether position `i` of `t` holds a word character (out of range: no). -/
def wordAt (t : Chars) (i : Nat) : Bool := isWordChar (t.getD i ' ')

/-- Regex `\b` at position `i` (between `t[i-1]` and `t[i]`): the two sides
differ in word-character status, string edges counting as non-word. -/
def boundaryAt (t : Chars) (i : Nat) : Bool :=
  (if i = 0 then false else wordAt t (i - 1)) != wordAt t i

/-- `find_word_matches` (src/search_utils.py lines 59-67): case-insensitive
whole-word occurrence of `target` in `text`, with `re.search` of
`\b + re.escape(target) + \b` semantics. -/
def find_word_matches (text target : Chars) : Bool :=
  let t := lowerChars text
  let p := lowerChars target
  (List.range (t.length + 1)).any (fun i =>
    decide ((t.drop i).take p.length = p) && boundaryAt t i && boundaryAt t (i + p.length))

/-- The namespaces whose display name or a variation occurs as a whole word
in the query (lines 94-106); `namespaces_to_search` before the fail-open step. -/
def matched_namespaces (query : Chars) : List String :=
  (namespace_docs.filter (fun e =>
    find_word_matches query e.2.display_name.toList ||
      e.2.variations.any (fun v => find_word_matches query v.toList))).map (fun e => e.1)

/-- Namespace selection with the fail-open default (lines 108-111). -/
def select_namespaces (query : Chars) : List String :=
  let m := matched_namespaces query
  if m.isEmpty then namespace_docs.map (fun e => e.1) else m

/-- `generate_embedding` (src/search_utils.py lines 10-16): the wrapped model
call; `none` models `model.encode` raising, turned into `[]`. -/
def generate_embedding (encoded : Option (List Int)) : List Int := encoded.getD []

/-- External-world inputs of one `search_regulations` call: the index stats
(`none` models `describe_index_stats` raising), the raw embedder output
(`none` models `model.encode` raising), and the per-namespace query results
(`none` models `index.query` raising). -/
structure SearchEnv where
  stats : Option (List (String × Nat))
  encoded : Option (List Int)
  fetch : String → Option (List RMatch)

/-- src/search_utils.py, `search_regulations` (lines 32-171). -/
def search_regulations (env : SearchEnv) (query : Chars) : List RMatch :=
  match env.stats with
  | none => []
  | some stats =>
    let total_vectors := (stats.map (fun e => e.2)).sum
    if total_vectors = 0 then []
    else
      let complexity_score := calculate_complexity_score query
      let params := determine_search_params (complexity_score : Int)
      let query_embedding := generate_embedding env.encoded
      if query_embedding.isEmpty || decide (query_embedding.length ≠ 768) then []
      else search_core env.fetch (select_namespaces query) params.1 params.2

/-- Python `list * n` (repetition). -/
def listMul (l : List α) : Nat → List α
  | 0 => []
  | n + 1 => l ++ listMul l n

/-- src/JsonToPinecone.py, `pad_embedding` (lines 92-104); `none` models the
`ZeroDivisionError` of `target_dim // current_dim` on an empty input. -/
def pad_embedding (embedding : List α) (target_dim : Nat) : Option (List α) :=
  let current_dim := embedding.length
  if current_dim ≥ target_dim then some (embedding.take target_dim)
  else if current_dim = 0 then none
  else
    let num_repeats := target_dim / current_dim
    let remainder := target_dim % current_dim
    some (listMul embedding num_repeats ++ embedding.take remainder)

/-- Flattening order of the per-namespace candidates: namespace iteration
order, failing namespaces contributing nothing. -/
def flattenMatches (fetch : String → Option (List RMatch)) : List String → List RMatch
  | [] => []
  | n :: rest =>
    (match fetch n with
     | none => []
     | some ms => ms.map (fun m => setNs m n)) ++ flattenMatches fetch rest

/-- Specification-side deduplication: keep the first occurrence of each id,
threading the set of ids already seen. -/
def dedupFirst : List RMatch → List String → List RMatch × List String
  | [], used => ([], used)
  | m :: ms, used =>
    if m.id ∈ used then dedupFirst ms used
    else
      let rest := dedupFirst ms (used ++ [m.id])
      (m :: rest.1, rest.2)

/-- Descending order by score. -/
def sortedByScoreDesc (l : List RMatch) : Prop := l.Pairwise scoreRel

/-- Ids pairwise distinct. -/
def uniqueIds (l : List RMatch) : Prop := l.Pairwise (fun a b => a.id ≠ b.id)

/-! ## Helper lemmas -/

lemma determine_search_params_floor_zero (s : Int) : (determine_search_params s).2 = 0 := by
  unfold determine_search_params
  split
  · rfl
  · split <;> rfl

lemma search_core_floor_zero (fetch : String → Option (List RMatch)) (nss : List String)
    (k : Nat) :
    search_core fetch nss k 0 =
      (sortByScoreDesc (collectMatches fetch nss ([], [])).1).take k := rfl

lemma collectMatches_skips_failing (fetch : String → Option (List RMatch)) (n : String)
    (h : fetch n = none) (nss : List String) :
    ∀ acc, collectMatches fetch (nss.filter (fun m => m != n)) acc =
      collectMatches fetch nss acc := by
  induction nss with
  | nil => intro acc; rfl
  | cons m rest ih =>
    intro acc
    by_cases hm : m = n
    · subst hm
      simp only [List.filter_cons, bne_self_eq_false, collectMatches, h]
      exact ih acc
    · have hb : (m != n) = true := bne_iff_ne.mpr hm
      simp only [List.filter_cons, hb, collectMatches]
      cases fetch m with
      | none => exact ih acc
      | some ms => exact ih _

lemma addNamespaceMatches_ns (n : String) (ms : List RMatch) :
    ∀ all used, ∀ m ∈ (addNamespaceMatches n ms (all, used)).1, m ∈ all ∨ m.ns = n := by
  induction ms with
  | nil => intro all used m hm; exact Or.inl hm
  | cons x xs ih =>
    intro all used m hm
    by_cases hx : x.id ∈ used
    · simp only [addNamespaceMatches, if_pos hx] at hm
      exact ih all used m hm
    · simp only [addNamespaceMatches, if_neg hx] at hm
      rcases ih _ _ m hm with h | h
      · rcases List.mem_append.mp h with h | h
        · exact Or.inl h
        · right
          rw [List.mem_singleton.mp h]
          rfl
      · exact Or.inr h

lemma collectMatches_ns (fetch : String → Option (List RMatch)) (nss : List String) :
    ∀ all used, ∀ m ∈ (collectMatches fetch nss (all, used)).1,
      m ∈ all ∨ fetch m.ns ≠ none := by
  induction nss with
  | nil => intro all used m hm; exact Or.inl hm
  | cons n rest ih =>
    intro all used m hm
    cases hf : fetch n with
    | none =>
      simp only [collectMatches, hf] at hm
      exact ih all used m hm
    | some ms =>
      simp only [collectMatches, hf] at hm
      rcases hp : addNamespaceMatches n ms (all, used) with ⟨a2, u2⟩
      rw [hp] at hm
      rcases ih a2 u2 m hm with h | h
      · have h1 : m ∈ (addNamespaceMatches n ms (all, used)).1 := by
          rw [hp]
          exact h
        rcases addNamespaceMatches_ns n ms all used m h1 with h2 | h2
        · exact Or.inl h2
        · right
          rw [h2, hf]
          exact Option.some_ne_none ms
      · exact Or.inr h

lemma floorPass_congr (rpn : Nat) (nss nss2 : List String) :
    ∀ l final counts, (∀ m ∈ l, (m.ns ∈ nss ↔ m.ns ∈ nss2)) →
      floorPass rpn nss l (final, counts) = floorPass rpn nss2 l (final, counts) := by
  intro l
  induction l with
  | nil => intro final counts _; rfl
  | cons m ms ih =>
    intro final counts h
    have hm := h m (List.mem_cons_self m ms)
    have hrest : ∀ x ∈ ms, (x.ns ∈ nss ↔ x.ns ∈ nss2) :=
      fun x hx => h x (List.mem_cons_of_mem m hx)
    by_cases hc : m.ns ∈ nss ∧ counts m.ns < rpn
    · have hc2 : m.ns ∈ nss2 ∧ counts m.ns < rpn := ⟨hm.mp hc.1, hc.2⟩
      simp only [floorPass, if_pos hc, if_pos hc2]
      exact ih _ _ hrest
    · have hc2 : ¬ (m.ns ∈ nss2 ∧ counts m.ns < rpn) := by
        intro h2
        exact hc ⟨hm.mpr h2.1, h2.2⟩
      simp only [floorPass, if_neg hc, if_neg hc2]
      exact ih _ _ hrest

lemma mergeResults_congr (nss nss2 : List String) (k rpn : Nat) (pool : List RMatch)
    (h : ∀ m ∈ pool, (m.ns ∈ nss ↔ m.ns ∈ nss2)) :
    mergeResults nss k rpn pool = mergeResults nss2 k rpn pool := by
  unfold mergeResults
  by_cases hr : rpn > 0
  · simp only [if_pos hr]
    rw [floorPass_congr rpn nss nss2 pool [] (fun _ => 0) h]
  · simp only [if_neg hr]

lemma hasSubstr_append_left (p pre X : Chars) (h : hasSubstr p X = true) :
    hasSubstr p (pre ++ X) = true := by
  induction pre with
  | nil => simpa using h
  | cons c cs ih =>
    show hasSubstr p (c :: (cs ++ X)) = true
    simp only [hasSubstr, Bool.or_eq_true]
    exact Or.inr ih

lemma pySplit_how (X : Chars) :
    pySplit ("how ".toList ++ X) = "how".toList :: pySplit X := rfl

lemma lowerChars_how (X : Chars) :
    lowerChars ("how ".toList ++ X) = "how ".toList ++ lowerChars X := by
  unfold lowerChars
  rw [List.map_append]
  congr 1

lemma ifTwoMono (b1 b2 : Bool) (h : b1 = true → b2 = true) :
    ((if b1 = true then 2 else 0) : Nat) ≤ if b2 = true then 2 else 0 := by
  cases b1 with
  | false => cases b2 <;> simp
  | true => simp [h rfl]

/-! ## Claims -/

/-- C1: the complexity score is the sum of the four independent contributions
(word count div 5, keyword hits, "and"/comma bonus, how/why bonus); it is a
non-negative integer and the empty query scores 0. -/
theorem complexity_score_decomposition (q : Chars) :
    calculate_complexity_score q =
      wordCountContribution q + keywordContribution q + multiConceptContribution q +
        questionTypeContribution q ∧
    0 ≤ (calculate_complexity_score q : Int) ∧
    calculate_complexity_score ([] : Chars) = 0 :=
  ⟨rfl, Int.natCast_nonneg _, rfl⟩

/-- The query of end-to-end scenario 1. -/
def scenario1_query : Chars := "Compare the audit frameworks across jurisdictions".toList

/-- C2 counterexample: the scenario-1 query scores 3, not 4 — the token
"frameworks" is not an exact match for the keyword "framework". -/
theorem scenario1_score_not_four :
    calculate_complexity_score scenario1_query = 3 ∧
    calculate_complexity_score scenario1_query ≠ 4 := by
  constructor
  · decide
  · decide

/-- C2 amended: the scenario-1 query scores exactly 3 (word-count
contribution 1, keyword contribution 2 — "frameworks" does not match
"framework" exactly — no "and"/comma bonus, no how/why bonus); that still
lands in the Medium tier (3 ≤ score < 6) and the search uses
max_results = 12, which lies in the range [8,12]. -/
theorem scenario1_medium_tier :
    calculate_complexity_score scenario1_query = 3 ∧
    wordCountContribution scenario1_query = 1 ∧
    keywordContribution scenario1_query = 2 ∧
    multiConceptContribution scenario1_query = 0 ∧
    questionTypeContribution scenario1_query = 0 ∧
    3 ≤ calculate_complexity_score scenario1_query ∧
    calculate_complexity_score scenario1_query < 6 ∧
    8 ≤ (determine_search_params (calculate_complexity_score scenario1_query : Int)).1 ∧
    (determine_search_params (calculate_complexity_score scenario1_query : Int)).1 ≤ 12 := by
  refine ⟨by decide, by decide, by decide, by decide, by decide, by decide, by decide, ?_, ?_⟩
  · decide
  · decide

/-- C9: `determine_search_params` returns a per-namespace floor of 0 for every
integer complexity score, so the floor-enforcement branch of
`search_regulations` is never executed: the search result is the sorted,
deduplicated union of per-namespace candidates truncated to `max_results`. -/
theorem results_per_namespace_always_zero (s : Int)
    (fetch : String → Option (List RMatch)) (nss : List String) (k : Nat) :
    (determine_search_params s).2 = 0 ∧
    search_core fetch nss k (determine_search_params s).2 =
      (sortByScoreDesc (collectMatches fetch nss ([], [])).1).take k := by
  refine ⟨determine_search_params_floor_zero s, ?_⟩
  rw [determine_search_params_floor_zero s]
  exact search_core_floor_zero fetch nss k

/-- C7: when the embedder output is empty or of the wrong dimension, the whole
retrieval call stops and returns the empty list. -/
theorem invalid_embedding_aborts (env : SearchEnv) (q : Chars)
    (h : generate_embedding env.encoded = [] ∨ (generate_embedding env.encoded).length ≠ 768) :
    search_regulations env q = [] := by
  have hcond : ((generate_embedding env.encoded).isEmpty
      || decide ((generate_embedding env.encoded).length ≠ 768)) = true := by
    rcases h with h | h
    · simp [h]
    · simp [h]
  unfold search_regulations
  cases env.stats with
  | none => rfl
  | some stats =>
    simp only [hcond]
    split <;> simp

/-- Environment for the C7 witness: the embedder call raised, so
`generate_embedding` yields the empty vector. -/
def witnessEnvC7 : SearchEnv := ⟨some [("ECB_GIM_Feb24", 3)], none, fun _ => none⟩

theorem invalid_embedding_aborts_witness :
    search_regulations witnessEnvC7 ("model risk".toList) = [] :=
  invalid_embedding_aborts witnessEnvC7 ("model risk".toList) (Or.inl rfl)

/-- C4: an exception raised by the vector-store query of one namespace is
caught inside the per-namespace loop: that namespace contributes zero
candidates, and the overall call returns exactly what the remaining
namespaces produce. -/
theorem failing_namespace_isolated (fetch : String → Option (List RMatch))
    (nss : List String) (n : String) (k rpn : Nat) (h : fetch n = none) :
    (∀ acc, collectMatches fetch [n] acc = acc) ∧
    search_core fetch nss k rpn = search_core fetch (nss.filter (fun m => m != n)) k rpn := by
  constructor
  · intro acc
    simp only [collectMatches, h]
  · unfold search_core
    rw [collectMatches_skips_failing fetch n h nss]
    apply mergeResults_congr
    intro m hm
    have hmem : m ∈ (collectMatches fetch nss ([], [])).1 :=
      (List.perm_insertionSort scoreRel _).mem_iff.mp hm
    have hns : fetch m.ns ≠ none := by
      rcases collectMatches_ns fetch nss [] [] m hmem with h2 | h2
      · exact absurd h2 (List.not_mem_nil m)
      · exact h2
    have hne : m.ns ≠ n := fun he => hns (he ▸ h)
    constructor
    · intro h2
      exact List.mem_filter.mpr ⟨h2, bne_iff_ne.mpr hne⟩
    · intro h2
      exact (List.mem_filter.mp h2).1

/-- Fetch for the C4 witness: namespace "bad" raises, the others answer. -/
def witnessFetchC4 : String → Option (List RMatch) :=
  fun n => if n = "bad" then none else some [⟨"x1", 5, n⟩]

theorem failing_namespace_isolated_witness :
    (∀ acc, collectMatches witnessFetchC4 ["bad"] acc = acc) ∧
    search_core witnessFetchC4 ["A", "bad"] 5 0 =
      search_core witnessFetchC4 (["A", "bad"].filter (fun m => m != "bad")) 5 0 :=
  failing_namespace_isolated witnessFetchC4 ["A", "bad"] "bad" 5 0 rfl

/-- C8: prefixing a query that does not already start with how/why by
"how " raises the complexity score by at least 3. -/
theorem how_question_bonus (X : Chars)
    (h : ("how".toList.isPrefixOf (lowerChars X) || "why".toList.isPrefixOf (lowerChars X)) = false) :
    calculate_complexity_score X + 3 ≤ calculate_complexity_score ("how ".toList ++ X) := by
  have d1 : calculate_complexity_score X =
      wordCountContribution X + keywordContribution X + multiConceptContribution X +
        questionTypeContribution X := rfl
  have d2 : calculate_complexity_score ("how ".toList ++ X) =
      wordCountContribution ("how ".toList ++ X) + keywordContribution ("how ".toList ++ X) +
        multiConceptContribution ("how ".toList ++ X) +
        questionTypeContribution ("how ".toList ++ X) := rfl
  have e1 : wordCountContribution X ≤ wordCountContribution ("how ".toList ++ X) := by
    unfold wordCountContribution
    rw [pySplit_how, List.length_cons]
    exact Nat.div_le_div_right (Nat.le_succ _)
  have e2 : keywordContribution ("how ".toList ++ X) = keywordContribution X := by
    unfold keywordContribution
    rw [pySplit_how, List.filter_cons, if_neg (by decide)]
  have e3 : multiConceptContribution X ≤ multiConceptContribution ("how ".toList ++ X) := by
    unfold multiConceptContribution
    apply ifTwoMono
    intro hb
    rcases Bool.or_eq_true_iff.mp hb with hx | hx
    · exact Bool.or_eq_true_iff.mpr (Or.inl (hasSubstr_append_left _ _ _ hx))
    · exact Bool.or_eq_true_iff.mpr (Or.inr (hasSubstr_append_left _ _ _ hx))
  have e4 : questionTypeContribution ("how ".toList ++ X) = 3 := by
    unfold questionTypeContribution
    rw [lowerChars_how]
    have hpre : "how".toList.isPrefixOf ("how ".toList ++ lowerChars X) = true := rfl
    simp [hpre]
  have e5 : questionTypeContribution X = 0 := by
    unfold questionTypeContribution
    rw [h]
    simp
  rw [d1, d2, e2, e4, e5]
  omega

theorem how_question_bonus_witness :
    ("how".toList.isPrefixOf (lowerChars "what is model risk".toList)
      || "why".toList.isPrefixOf (lowerChars "what is model risk".toList)) = false ∧
    calculate_complexity_score "what is model risk".toList + 3 ≤
      calculate_complexity_score ("how ".toList ++ "what is model risk".toList) :=
  ⟨by decide, how_question_bonus "what is model risk".toList (by decide)⟩


lemma listMul_length (l : List Int) (n : Nat) : (listMul l n).length = n * l.length := by
  induction n with
  | zero => simp [listMul]
  | succ k ih =>
    show (l ++ listMul l k).length = (k + 1) * l.length
    rw [List.length_append, ih, Nat.succ_mul]
    omega

lemma listMul_getD (l : List Int) (n : Nat) :
    ∀ i, i < n * l.length → (listMul l n).getD i 0 = l.getD (i % l.length) 0 := by
  induction n with
  | zero => intro i hi; simp at hi
  | succ k ih =>
    intro i hi
    by_cases hlt : i < l.length
    · show (l ++ listMul l k).getD i 0 = _
      rw [List.getD_append _ _ _ _ hlt, Nat.mod_eq_of_lt hlt]
    · push_neg at hlt
      show (l ++ listMul l k).getD i 0 = _
      rw [List.getD_append_right _ _ _ _ hlt]
      obtain ⟨j, rfl⟩ : ∃ j, i = l.length + j := ⟨i - l.length, by omega⟩
      have hj : j < k * l.length := by
        have hs : (k + 1) * l.length = k * l.length + l.length := Nat.succ_mul k l.length
        omega
      rw [Nat.add_sub_cancel_left, ih j hj]
      congr 1
      exact (Nat.add_mod_left _ _).symm

lemma getD_take (l : List Int) (n j : Nat) (h : j < n) :
    (l.take n).getD j 0 = l.getD j 0 := by
  simp [List.getD_eq_getElem?_getD, List.getElem?_take, h]

lemma pad_embedding_length (l : List Int) (t : Nat) (hne : l ≠ []) :
    ∃ r, pad_embedding l t = some r ∧ r.length = t := by
  have hpos : 0 < l.length := List.length_pos.mpr hne
  unfold pad_embedding
  by_cases hge : l.length ≥ t
  · exact ⟨l.take t, by rw [if_pos hge], by rw [List.length_take]; omega⟩
  · have h0 : ¬ l.length = 0 := by omega
    refine ⟨listMul l (t / l.length) ++ l.take (t % l.length), ?_, ?_⟩
    · rw [if_neg hge, if_neg h0]
    · rw [List.length_append, listMul_length, List.length_take]
      have hrem : t % l.length < l.length := Nat.mod_lt _ hpos
      have hdm := Nat.div_add_mod t l.length
      have hc : l.length * (t / l.length) = t / l.length * l.length := Nat.mul_comm _ _
      omega

/-- C6: for `0 < d < target`, `pad_embedding` returns a vector of length
exactly `target` whose first `d` values are the original vector and whose
remaining values cyclically repeat it; for `d ≥ target` it returns the
first `target` values unchanged. -/
theorem pad_embedding_cyclic (l : List Int) (t : Nat) :
    (0 < l.length → l.length < t →
      ∃ r, pad_embedding l t = some r ∧ r.length = t ∧ r.take l.length = l ∧
        ∀ i, i < t → r.getD i 0 = l.getD (i % l.length) 0) ∧
    (t ≤ l.length → pad_embedding l t = some (l.take t)) := by
  constructor
  · intro hpos hlt
    have hge : ¬ l.length ≥ t := by omega
    have h0 : ¬ l.length = 0 := by omega
    have hrem : t % l.length < l.length := Nat.mod_lt _ hpos
    have hdm := Nat.div_add_mod t l.length
    have hc : l.length * (t / l.length) = t / l.length * l.length := Nat.mul_comm _ _
    refine ⟨listMul l (t / l.length) ++ l.take (t % l.length), ?_, ?_, ?_, ?_⟩
    · unfold pad_embedding
      rw [if_neg hge, if_neg h0]
    · rw [List.length_append, listMul_length, List.length_take]
      omega
    · have hq : 1 ≤ t / l.length := (Nat.one_le_div_iff hpos).mpr (le_of_lt hlt)
      obtain ⟨q, hq2⟩ : ∃ q, t / l.length = q + 1 := ⟨t / l.length - 1, by omega⟩
      rw [hq2]
      show (l ++ listMul l q ++ l.take (t % l.length)).take l.length = l
      rw [List.append_assoc]
      exact List.take_left l _
    · intro i hi
      by_cases hil : i < (listMul l (t / l.length)).length
      · rw [List.getD_append _ _ _ _ hil]
        rw [listMul_length] at hil
        exact listMul_getD l _ i hil
      · push_neg at hil
        rw [List.getD_append_right _ _ _ _ hil]
        rw [listMul_length] at hil
        obtain ⟨j, rfl⟩ : ∃ j, i = t / l.length * l.length + j :=
          ⟨i - t / l.length * l.length, by omega⟩
        rw [listMul_length, Nat.add_sub_cancel_left]
        have hjr : j < t % l.length := by omega
        rw [getD_take l _ j hjr]
        congr 1
        rw [← hc, Nat.mul_add_mod, Nat.mod_eq_of_lt (lt_trans hjr hrem)]
  · intro hle
    unfold pad_embedding
    rw [if_pos hle]

theorem pad_embedding_cyclic_witness :
    (∃ r, pad_embedding ([1, 2] : List Int) 5 = some r ∧ r.length = 5 ∧
      r.take ([1, 2] : List Int).length = [1, 2] ∧
      ∀ i, i < 5 → r.getD i 0 = ([1, 2] : List Int).getD (i % ([1, 2] : List Int).length) 0) ∧
    pad_embedding ([3, 4] : List Int) 2 = some (([3, 4] : List Int).take 2) :=
  ⟨(pad_embedding_cyclic [1, 2] 5).1 (by decide) (by decide),
   (pad_embedding_cyclic [3, 4] 2).2 (by decide)⟩

/-- C10: for every non-empty embedding `pad_embedding` returns a list of
length exactly `target_dim`, but on the empty embedding with
`target_dim > 0` it reaches `target_dim // 0` and raises
`ZeroDivisionError` (modelled as `none`). -/
theorem pad_embedding_empty_raises (l : List Int) (t : Nat) (ht : 0 < t) :
    (l ≠ [] → ∃ r, pad_embedding l t = some r ∧ r.length = t) ∧
    pad_embedding ([] : List Int) t = none := by
  constructor
  · exact pad_embedding_length l t
  · unfold pad_embedding
    have h1 : ¬ (([] : List Int).length ≥ t) := by
      simp only [List.length_nil]
      omega
    have h2 : ([] : List Int).length = 0 := rfl
    rw [if_neg h1, if_pos h2]

theorem pad_embedding_empty_raises_witness :
    (∃ r, pad_embedding ([7] : List Int) 3 = some r ∧ r.length = 3) ∧
    pad_embedding ([] : List Int) 3 = none :=
  ⟨(pad_embedding_empty_raises [7] 3 (by decide)).1 (by decide),
   (pad_embedding_empty_raises [7] 3 (by decide)).2⟩


/-- Concrete matches and fetch exhibiting the unsorted floor-branch output. -/
def cexM1 : RMatch := ⟨"a", 10, "A"⟩

def cexM2 : RMatch := ⟨"b", 9, "A"⟩

def cexM3 : RMatch := ⟨"c", 1, "B"⟩

def cexFetch : String → Option (List RMatch) :=
  fun n => if n = "A" then some [cexM1, cexM2] else if n = "B" then some [cexM3] else none

lemma dedupFirst_append (xs ys : List RMatch) :
    ∀ used, dedupFirst (xs ++ ys) used =
      ((dedupFirst xs used).1 ++ (dedupFirst ys (dedupFirst xs used).2).1,
        (dedupFirst ys (dedupFirst xs used).2).2) := by
  induction xs with
  | nil => intro used; simp [dedupFirst]
  | cons m ms ih =>
    intro used
    by_cases h : m.id ∈ used
    · simp only [List.cons_append, dedupFirst, if_pos h, List.append_eq]
      exact ih used
    · simp only [List.cons_append, dedupFirst, if_neg h, List.append_eq]
      rw [ih (used ++ [m.id])]

lemma addNamespaceMatches_eq (n : String) (ms : List RMatch) :
    ∀ all used, addNamespaceMatches n ms (all, used) =
      (all ++ (dedupFirst (ms.map (fun m => setNs m n)) used).1,
        (dedupFirst (ms.map (fun m => setNs m n)) used).2) := by
  induction ms with
  | nil => intro all used; simp [addNamespaceMatches, dedupFirst]
  | cons m rest ih =>
    intro all used
    by_cases h : m.id ∈ used
    · have h2 : (setNs m n).id ∈ used := h
      simp only [addNamespaceMatches, if_pos h, List.map_cons, dedupFirst, if_pos h2]
      exact ih all used
    · have h2 : ¬ (setNs m n).id ∈ used := h
      simp only [addNamespaceMatches, if_neg h, List.map_cons, dedupFirst, if_neg h2]
      rw [ih]
      simp [setNs, List.append_assoc]

lemma collectMatches_eq (fetch : String → Option (List RMatch)) (nss : List String) :
    ∀ all used, collectMatches fetch nss (all, used) =
      (all ++ (dedupFirst (flattenMatches fetch nss) used).1,
        (dedupFirst (flattenMatches fetch nss) used).2) := by
  induction nss with
  | nil => intro all used; simp [collectMatches, flattenMatches, dedupFirst]
  | cons n rest ih =>
    intro all used
    cases hf : fetch n with
    | none =>
      simp only [collectMatches, hf, flattenMatches]
      rw [ih]
      simp
    | some ms =>
      simp only [collectMatches, hf, flattenMatches]
      rw [addNamespaceMatches_eq, ih, dedupFirst_append]
      simp [List.append_assoc]

lemma dedupFirst_unique (l : List RMatch) :
    ∀ used, uniqueIds (dedupFirst l used).1 ∧
      ∀ m ∈ (dedupFirst l used).1, m.id ∉ used := by
  induction l with
  | nil =>
    intro used
    constructor
    · exact List.Pairwise.nil
    · intro m hm
      simp [dedupFirst] at hm
  | cons m ms ih =>
    intro used
    by_cases h : m.id ∈ used
    · simp only [dedupFirst, if_pos h]
      exact ih used
    · simp only [dedupFirst, if_neg h]
      have ihm := ih (used ++ [m.id])
      constructor
      · apply List.Pairwise.cons
        · intro b hb he
          exact ihm.2 b hb (List.mem_append.mpr (Or.inr (List.mem_singleton.mpr he.symm)))
        · exact ihm.1
      · intro b hb
        rcases List.mem_cons.mp hb with hbm | hb2
        · rw [hbm]
          exact h
        · intro hbu
          exact ihm.2 b hb2 (List.mem_append.mpr (Or.inl hbu))

lemma sortByScoreDesc_sorted (l : List RMatch) : sortedByScoreDesc (sortByScoreDesc l) :=
  List.sorted_insertionSort scoreRel l

lemma sortByScoreDesc_unique (l : List RMatch) (h : uniqueIds l) :
    uniqueIds (sortByScoreDesc l) :=
  (List.Perm.pairwise_iff (fun hxy => Ne.symm hxy) (List.perm_insertionSort scoreRel l)).mpr h

lemma collect_unique (fetch : String → Option (List RMatch)) (nss : List String) :
    uniqueIds (collectMatches fetch nss ([], [])).1 := by
  rw [collectMatches_eq fetch nss [] []]
  simpa using (dedupFirst_unique (flattenMatches fetch nss) []).1

/-- C3 amended: every retrieval call returns a result sorted by descending
similarity score with pairwise-distinct ids, because the per-namespace floor
is always 0; deduplication keeps exactly the first occurrence of each id in
flattening order.  (The floor branch itself, were the floor positive,
applies no final re-sort: see the counterexample.) -/
theorem search_results_sorted_unique (env : SearchEnv) (q : Chars) :
    sortedByScoreDesc (search_regulations env q) ∧
    uniqueIds (search_regulations env q) ∧
    (collectMatches env.fetch (select_namespaces q) ([], [])).1 =
      (dedupFirst (flattenMatches env.fetch (select_namespaces q)) []).1 := by
  have hcol : (collectMatches env.fetch (select_namespaces q) ([], [])).1 =
      (dedupFirst (flattenMatches env.fetch (select_namespaces q)) []).1 := by
    rw [collectMatches_eq env.fetch (select_namespaces q) [] []]
    simp
  have hmain : sortedByScoreDesc (search_regulations env q) ∧
      uniqueIds (search_regulations env q) := by
    unfold search_regulations
    cases env.stats with
    | none => exact ⟨List.Pairwise.nil, List.Pairwise.nil⟩
    | some stats =>
      dsimp only
      split
      · exact ⟨List.Pairwise.nil, List.Pairwise.nil⟩
      · split
        · exact ⟨List.Pairwise.nil, List.Pairwise.nil⟩
        · rw [determine_search_params_floor_zero, search_core_floor_zero]
          constructor
          · exact List.Pairwise.sublist (List.take_sublist _ _) (sortByScoreDesc_sorted _)
          · exact List.Pairwise.sublist (List.take_sublist _ _)
              (sortByScoreDesc_unique _ (collect_unique env.fetch _))
  exact ⟨hmain.1, hmain.2, hcol⟩

/-- C3 counterexample: with a positive per-namespace floor the merge branch
applies no final sort by descending score — on this concrete input the
output scores are 10, 1, 9, not in descending order. -/
theorem floor_branch_output_not_resorted :
    search_core cexFetch ["A", "B"] 3 1 = [cexM1, cexM3, cexM2] ∧
    cexM1.score = 10 ∧ cexM3.score = 1 ∧ cexM2.score = 9 ∧
    ¬ sortedByScoreDesc (search_core cexFetch ["A", "B"] 3 1) := by
  refine ⟨by decide, rfl, rfl, rfl, ?_⟩
  unfold sortedByScoreDesc
  decide


/-- C5: a namespace is matched iff the query contains its display name or
one of its variation aliases as a case-insensitive whole-word occurrence;
when nothing matches, all registered namespaces are selected, and the
selected set is never empty. -/
theorem namespace_selection_whole_word_fail_open (q : Chars) :
    (∀ p ∈ namespace_docs, (p.1 ∈ matched_namespaces q ↔
      (find_word_matches q p.2.display_name.toList = true ∨
        ∃ v ∈ p.2.variations, find_word_matches q v.toList = true))) ∧
    (matched_namespaces q = [] → select_namespaces q = namespace_docs.map (fun e => e.1)) ∧
    select_namespaces q ≠ [] := by
  refine ⟨?_, ?_, ?_⟩
  · intro p hp
    fin_cases hp <;>
      simp [matched_namespaces, namespace_docs, List.mem_map, List.mem_filter]
  · intro h
    simp [select_namespaces, h]
  · unfold select_namespaces
    by_cases h : (matched_namespaces q).isEmpty = true
    · rw [if_pos h]
      decide
    · rw [if_neg h]
      intro hc
      exact h (by rw [hc]; rfl)

theorem namespace_selection_witness :
    select_namespaces "what does the ecb guide say".toList ≠ [] :=
  (namespace_selection_whole_word_fail_open "what does the ecb guide say".toList).2.2

end Regchat
